import Mathlib

/-!
# Verification of the OpenPricev7 pricing pipeline

A shallow embedding, in Lean 4, of the response-parsing and program-selection
pipeline of the OpenPricev7 mortgage quoting repository
(`src/backups/get-pricing_2026-02-06.ts` and the client-side copy in
`src/unnamed/part_000`), together with proofs of the behavioural claims made
by the design specification.

Modelling conventions:
* JavaScript numbers that the pipeline treats arithmetically (rates, points,
  prices, adjustment amounts) are modelled as `ℚ`; every value the claims
  exercise is an exact decimal, so rational arithmetic agrees with IEEE
  doubles on them.
* JavaScript strings are modelled as Lean `String` / `List Char`; the
  handful of string primitives the source uses (`toUpperCase`, `includes`,
  `replace` with string or concrete-regex patterns, `split`-free scanning)
  are given explicit executable definitions below, faithful to ECMAScript
  semantics on the ASCII inputs the pipeline handles.
* Optional fields (`adjustments?`, `rateOptions?`) are modelled as lists,
  with absence represented by `[]`, matching how the source guards them
  (`if (!x) return` / `x || []`).
-/

namespace OpenPrice

/-! ## String primitives (ECMAScript `includes`, `toUpperCase`, `replace`) -/

/-- Boolean prefix test on character lists: `isPrefixL p s` holds when `p`
is a prefix of `s`. -/
def isPrefixL : List Char → List Char → Bool
  | [], _ => true
  | _ :: _, [] => false
  | p :: ps, c :: cs => p == c && isPrefixL ps cs

/-- Boolean substring test on character lists, the model of JavaScript
`String.prototype.includes`. -/
def containsL (pat : List Char) : List Char → Bool
  | [] => isPrefixL pat []
  | c :: cs => isPrefixL pat (c :: cs) || containsL pat cs

/-- Substring test on strings. -/
def strContains (s pat : String) : Bool := containsL pat.data s.data

/-- ASCII upper-casing of a character list; model of
`String.prototype.toUpperCase` on the ASCII payloads handled here. -/
def toUpperL (s : List Char) : List Char := s.map Char.toUpper

/-- ASCII upper-casing of a string. -/
def strUpper (s : String) : String := ⟨toUpperL s.data⟩

/-- ECMAScript white-space test for the `\s` regex class (ASCII part). -/
def isWS (c : Char) : Bool :=
  c == ' ' || c == '\t' || c == '\n' || c == '\r' || c == '\x0b' || c == '\x0c'

/-- Drop a maximal run of white space, the deterministic reading of a greedy
`\s*` whose follower is not white space. -/
def dropWS : List Char → List Char
  | [] => []
  | c :: cs => if isWS c then dropWS cs else c :: cs

/-! ## The prepayment-penalty (PPP) classifier

Embeds `hasPPPInName` (PricingLogic, `get-pricing_2026-02-06.ts` lines
984–991, identical copy in `part_000` lines 528–535) and the handler-local
`hasPPP` (lines 510–519). -/

/-- The test `/\d\s*YR\s*PPP/i.test(upper)`: some position holds a digit
followed by optional white space, `YR` (case-insensitive), optional white
space, and `PPP` (case-insensitive). Matching is deterministic because the
characters after each `\s*` are not white space. -/
def digitYrPPPAfter (s : List Char) : Bool :=
  match dropWS s with
  | y :: r :: rest =>
    (y.toUpper == 'Y') && (r.toUpper == 'R') &&
      (match dropWS rest with
       | p1 :: p2 :: p3 :: _ =>
         (p1.toUpper == 'P') && (p2.toUpper == 'P') && (p3.toUpper == 'P')
       | _ => false)
  | _ => false

/-- Scan for the `\d\s*YR\s*PPP` pattern anywhere in the text. -/
def digitYrPPPTest : List Char → Bool
  | [] => false
  | c :: cs => (c.isDigit && digitYrPPPAfter cs) || digitYrPPPTest cs

/-- `hasPPPInName` from PricingLogic: upper-case the text; texts containing
`0MO PPP`, `0 YR PPP` or `0YR PPP` are not penalties; otherwise a penalty is
any ` PPP`, `YR PPP`, or digit + `YR PPP` occurrence. -/
def hasPPPInName (text : String) : Bool :=
  let upper := toUpperL text.data
  if containsL "0MO PPP".data upper || containsL "0 YR PPP".data upper ||
      containsL "0YR PPP".data upper then
    false
  else
    containsL " PPP".data upper || containsL "YR PPP".data upper || digitYrPPPTest upper

/-- The handler-local `hasPPP` (lines 510–519): identical to `hasPPPInName`
but guarded by `if (!text) return false` for the empty string. -/
def hasPPP (text : String) : Bool :=
  if text = "" then false else hasPPPInName text

/-- Replace the first occurrence of `pat` by `repl`, the model of JavaScript
`String.prototype.replace` with a string pattern. -/
def replaceFirstL (pat repl : List Char) : List Char → List Char
  | [] => []
  | c :: cs =>
    if isPrefixL pat (c :: cs) ∧ pat ≠ [] then repl ++ (c :: cs).drop pat.length
    else c :: replaceFirstL pat repl cs

/-- Replace every occurrence of `pat` by `repl`, scanning left to right and
continuing after each replacement without rescanning it: the model of
JavaScript `String.prototype.replace` with a global string-literal regex. -/
def replaceAllL (pat repl : List Char) : List Char → List Char
  | [] => []
  | c :: cs =>
    if isPrefixL pat (c :: cs) ∧ pat ≠ [] then
      repl ++ replaceAllL pat repl (cs.drop (pat.length - 1))
    else c :: replaceAllL pat repl cs
termination_by s => s.length
decreasing_by
  · simp only [List.length_cons, List.length_drop]
    omega
  · simp

/-! ## Data model

`Adjustment`, `RateOption`, `Program` as parsed by `parseSOAPResponse`
(lines 236–444) and typed in PricingLogic (lines 663–740). Numeric fields
are `ℚ`; optional arrays are lists defaulting to `[]`. -/

structure Adjustment where
  description : String
  amount : ℚ
  rateAdj : ℚ
deriving DecidableEq, Repr

structure RateOption where
  rate : ℚ := 0
  points : ℚ := 0
  apr : ℚ := 0
  payment : ℚ := 0
  description : String := ""
  investor : String := ""
  status : String := ""
  bestPrice : Bool := false
  totalClosingCost : ℚ := 0
  cashToClose : ℚ := 0
  adjustments : List Adjustment := []
deriving DecidableEq, Repr

structure Program where
  name : String := ""
  programName : String := ""
  status : String := ""
  /-- The representative (best) rate option's description, copied onto the
  program by `parseSOAPResponse` (line 420). -/
  description : String := ""
  term : ℕ := 360
  parRate : ℚ := 0
  parPoints : ℚ := 0
  lockDays : ℕ := 30
  rate : ℚ := 0
  apr : ℚ := 0
  points : ℚ := 0
  investorName : String := ""
  rateOptions : List RateOption := []
  adjustments : List Adjustment := []
deriving DecidableEq, Repr

structure TargetPricingOption where
  rate : ℚ
  points : ℚ
  apr : ℚ
  price : ℚ
  payment : ℚ
  programName : String
  adjustments : List Adjustment
deriving DecidableEq, Repr

/-! ## Target-Pricing Selector

Embeds `getPPPPattern` (lines 968–978), `isPPPAllowed` (lines 996–998) and
`getTargetPricing` (lines 1070–1160). -/

/-- `getPPPPattern`: map the prepay-period form value to the PPP label,
defaulting to `3 YR PPP`. -/
def getPPPPattern (prepayPeriod : String) : String :=
  if prepayPeriod = "5year" then "5 YR PPP"
  else if prepayPeriod = "4year" then "4 YR PPP"
  else if prepayPeriod = "3year" then "3 YR PPP"
  else if prepayPeriod = "2year" then "2 YR PPP"
  else if prepayPeriod = "1year" then "1 YR PPP"
  else if prepayPeriod = "0year" then "0 YR PPP"
  else "3 YR PPP"

/-- `isPPPAllowed`: a prepayment penalty is permitted only for investment
occupancy. -/
def isPPPAllowed (occupancyType : String) : Bool := occupancyType == "investment"

/-- `program.name || 'Unknown'` as used inside `getTargetPricing`. -/
def progDisplayName (p : Program) : String := if p.name = "" then "Unknown" else p.name

/-- The `(opt.description || programName)` fallback used for both the
penalty check and the reported program name. -/
def optionDesc (programName : String) (opt : RateOption) : String :=
  if opt.description = "" then programName else opt.description

/-- The target option record built when a rate option is selected
(lines 1110–1118). -/
def mkTargetOption (programName : String) (opt : RateOption) : TargetPricingOption :=
  { rate := opt.rate
    points := opt.points
    apr := opt.apr
    price := 100 - opt.points
    payment := opt.payment
    programName := optionDesc programName opt
    adjustments := opt.adjustments }

/-- The price-band / closest-to-100 update performed on each candidate
(lines 1102–1120, repeated verbatim in the fallback pass): only prices in
`[99, 101]` are considered, and a candidate replaces the current best only
when its distance to 100 is strictly smaller (so the first-encountered
candidate wins ties). The state carries `closestDistance` with the selected
option; `none` is the initial `closestDistance = Infinity` state. -/
def closestStep (programName : String) (st : Option (ℚ × TargetPricingOption))
    (opt : RateOption) : Option (ℚ × TargetPricingOption) :=
  let price := 100 - opt.points
  if 99 ≤ price ∧ price ≤ 101 then
    let distance := |price - 100|
    match st with
    | none => some (distance, mkTargetOption programName opt)
    | some (best, t) =>
      if distance < best then some (distance, mkTargetOption programName opt)
      else some (best, t)
  else st

/-- Pass 1 of `getTargetPricing` for one rate option: skip penalty-bearing
options when a penalty is not permitted; when permitted, require the
selected PPP label (checked in both the spaced and unspaced variant); then
run the closest-to-100 update. -/
def pass1Step (pppAllowed : Bool) (selectedPPP : String) (programName : String)
    (st : Option (ℚ × TargetPricingOption)) (opt : RateOption) :
    Option (ℚ × TargetPricingOption) :=
  let desc := strUpper (optionDesc programName opt)
  if !pppAllowed && hasPPPInName desc then st
  else if pppAllowed &&
      !(strContains desc (strUpper selectedPPP) ||
        strContains desc (strUpper ⟨replaceFirstL " YR ".data "YR ".data selectedPPP.data⟩)) then
    st
  else closestStep programName st opt

/-- Pass 2 (fallback) of `getTargetPricing` for one rate option: same
closest-to-100 update, still skipping penalty-bearing options when a
penalty is not permitted, but without the PPP-label requirement. -/
def pass2Step (pppAllowed : Bool) (programName : String)
    (st : Option (ℚ × TargetPricingOption)) (opt : RateOption) :
    Option (ℚ × TargetPricingOption) :=
  let desc := strUpper (optionDesc programName opt)
  if !pppAllowed && hasPPPInName desc then st
  else closestStep programName st opt

/-- Fold one candidate-update step over every rate option of every program,
in program-then-rate-option order (the nested `forEach` loops). -/
def runPass
    (step : String → Option (ℚ × TargetPricingOption) → RateOption →
      Option (ℚ × TargetPricingOption))
    (programs : List Program) : Option (ℚ × TargetPricingOption) :=
  programs.foldl (fun st p => p.rateOptions.foldl (step (progDisplayName p)) st) none

/-- `getTargetPricing` (lines 1070–1160): pass 1, then the fallback pass
only when pass 1 selected nothing. -/
def getTargetPricing (programs : List Program) (occupancyType prepayPeriod : String) :
    Option TargetPricingOption :=
  let pppAllowed := isPPPAllowed occupancyType
  let selectedPPP := if pppAllowed then getPPPPattern prepayPeriod else ""
  match runPass (pass1Step pppAllowed selectedPPP) programs with
  | some (_, t) => some t
  | none => (runPass (pass2Step pppAllowed) programs).map Prod.snd

/-- The selection rule exactly as the specification words it, for the
refinement comparison of claim C1: scan every rate option of every program
in source order and keep the first-encountered option whose implied price
`100 - points` lies in `[99, 101]` and is closest to 100. -/
def specSelectTarget (programs : List Program) : Option TargetPricingOption :=
  (runPass closestStep programs).map Prod.snd

/-! ## Eligibility & Penalty Filter

Embeds the handler's filtering stage (lines 502–532): keep status
`"Eligible"`, then — unless occupancy is `investment` — drop penalty-bearing
programs, filter penalty-bearing rate options inside the survivors, and
drop programs left without rate options. The in-place
`p.rateOptions = p.rateOptions.filter(...)` mutation is rendered as a
record update inside a `filterMap`. -/

/-- The per-program body of `eligiblePrograms.filter(p => ...)`
(lines 521–531). -/
def filterProgramPPP (p : Program) : Option Program :=
  if hasPPP p.programName || hasPPP p.name then none
  else if hasPPP p.description then none
  else
    let ros := p.rateOptions.filter (fun ro => !hasPPP ro.description)
    if 0 < ros.length then some { p with rateOptions := ros } else none

/-- The handler's eligibility-plus-penalty filter (lines 502–532). -/
def filterEligiblePPP (occupancyType : String) (programs : List Program) : List Program :=
  let eligiblePrograms := programs.filter (fun p => p.status == "Eligible")
  if occupancyType == "investment" then eligiblePrograms
  else eligiblePrograms.filterMap filterProgramPPP

/-- The penalty filter mutates `p.rateOptions` in place on program objects
shared with the pre-filter `result.programs` list; this is the view of one
such shared object after the filter ran (it is changed exactly when the
program was eligible, non-investment occupancy applied, and the
name/description checks passed). -/
def pppMutateView (occupancyType : String) (p : Program) : Program :=
  if occupancyType == "investment" then p
  else if p.status == "Eligible" &&
      !(hasPPP p.programName || hasPPP p.name) && !hasPPP p.description then
    { p with rateOptions := p.rateOptions.filter (fun ro => !hasPPP ro.description) }
  else p

/-! ## Adjustment Sanitizer/Rewriter

Embeds the adjustment filter-and-rewrite stage (lines 534–564 for each rate
option's list, lines 620–638 verbatim for the global list). The DSCR
description rewrite uses the regex `/DSCR:\s*DSCR\s*>=?\s*[\d.]+/i` with a
non-global `String.prototype.replace`, i.e. the leftmost match only. -/

/-- Case-insensitive literal match: `pat` is given upper-case; consumes `pat`
from the head of `s` comparing upper-cased characters, returning the rest. -/
def ciPrefixDrop : List Char → List Char → Option (List Char)
  | [], s => some s
  | _ :: _, [] => none
  | p :: ps, c :: cs => if c.toUpper == p then ciPrefixDrop ps cs else none

/-- Maximal prefix of digits and dots, the greedy `[\d.]+` reading. -/
def spanDigitsDots (s : List Char) : List Char × List Char :=
  s.span (fun c => c.isDigit || c == '.')

/-- Try to match `/DSCR:\s*DSCR\s*>=?\s*[\d.]+/i` at the head of `s`,
returning the text after the match. The regex is deterministic: each `\s*`
is followed by a non-white-space requirement and `[\d.]+` is not followed
by anything. -/
def matchDSCRAt (s : List Char) : Option (List Char) :=
  (ciPrefixDrop "DSCR:".data s).bind fun s1 =>
  (ciPrefixDrop "DSCR".data (dropWS s1)).bind fun s2 =>
  match dropWS s2 with
  | '>' :: s3 =>
    let s4 := match s3 with
      | '=' :: r => r
      | _ => s3
    let (ds, s5) := spanDigitsDots (dropWS s4)
    if ds.isEmpty then none else some s5
  | _ => none

/-- Replace the leftmost `/DSCR:\s*DSCR\s*>=?\s*[\d.]+/i` match by `repl`
(no match: the text is unchanged). -/
def replaceDSCRMatch (repl : List Char) : List Char → List Char
  | [] => []
  | c :: cs =>
    match matchDSCRAt (c :: cs) with
    | some rest => repl ++ rest
    | none => c :: replaceDSCRMatch repl cs

/-- The rewrite applied to one surviving adjustment (lines 549–562):
for DSCR scenarios with a known formatted ratio, a DSCR-labelled
description has its `DSCR: DSCR >= <threshold>` substring replaced by
`DSCR: <ratio> (<tier>)`. `actualDSCRValue` is the already-formatted
`parseFloat(formData.dscrValue).toFixed(3)` string (or `none` when absent),
`actualDSCRTier` the scenario's tier label. -/
def rewriteDSCRAdj (isDSCRRequest : Bool) (actualDSCRValue actualDSCRTier : Option String)
    (adj : Adjustment) : Adjustment :=
  match actualDSCRValue with
  | none => adj
  | some v =>
    if isDSCRRequest && strContains (strUpper adj.description) "DSCR" then
      { adj with description :=
          ⟨replaceDSCRMatch
            ("DSCR: " ++ v ++ " (" ++ actualDSCRTier.getD "N/A" ++ ")").data
            adj.description.data⟩ }
    else adj

/-- The keep-predicate applied to each adjustment (lines 542–548): drop DSCR
lines on non-DSCR scenarios and CASHOUT lines on rate/term refinances. -/
def keepAdjustment (isDSCRRequest : Bool) (loanPurpose : String) (adj : Adjustment) : Bool :=
  let desc := strUpper adj.description
  if !isDSCRRequest && strContains desc "DSCR" then false
  else if loanPurpose == "refinance" && strContains desc "CASHOUT" then false
  else true

/-- Filter then rewrite one adjustment list (the
`ro.adjustments.filter(...).map(...)` chain; the same chain is applied to
the global list at lines 620–638). -/
def sanitizeAdjList (isDSCRRequest : Bool) (loanPurpose : String)
    (actualDSCRValue actualDSCRTier : Option String) (adjs : List Adjustment) :
    List Adjustment :=
  (adjs.filter (keepAdjustment isDSCRRequest loanPurpose)).map
    (rewriteDSCRAdj isDSCRRequest actualDSCRValue actualDSCRTier)

/-- The sanitizer pass over every surviving program's rate options
(lines 538–564). -/
def sanitizePrograms (isDSCRRequest : Bool) (loanPurpose : String)
    (actualDSCRValue actualDSCRTier : Option String) (programs : List Program) :
    List Program :=
  programs.map fun p =>
    { p with
      rateOptions := p.rateOptions.map fun ro =>
        { ro with
          adjustments := sanitizeAdjList isDSCRRequest loanPurpose actualDSCRValue
            actualDSCRTier ro.adjustments } }

/-! ## Adjustment Table Parser: one adjustment item

Embeds the per-item extraction inside the `AdjustmentsTable` loop
(lines 287–314): strip the `%` from the `Point` attribute, parse it as a
number, and negate it for the price impact; same parse without negation for
the `Rate` attribute. `parseFloat` is modelled on decimal notation (the
format the engine emits); `parseFloat(x) || 0` maps an unparsable string to
0. -/

/-- Numeric value of a digit string. -/
def digitsVal (ds : List Char) : ℕ :=
  ds.foldl (fun n c => 10 * n + (c.toNat - '0'.toNat)) 0

/-- JavaScript `parseFloat` on the decimal fragment (optional leading white
space, optional sign, digits with an optional fractional part, trailing
text ignored); `none` models `NaN`. Exponent notation never occurs in the
engine's percent strings and is not modelled. -/
def parseFloatQ (s : List Char) : Option ℚ :=
  let s0 := dropWS s
  let signAndRest : ℚ × List Char :=
    match s0 with
    | '-' :: r => (-1, r)
    | '+' :: r => (1, r)
    | _ => (1, s0)
  let (intPart, s2) := signAndRest.2.span Char.isDigit
  let fracPart : List Char :=
    match s2 with
    | '.' :: r => (r.span Char.isDigit).1
    | _ => []
  if intPart.isEmpty && fracPart.isEmpty then none
  else some (signAndRest.1 *
    ((digitsVal intPart : ℚ) + (digitsVal fracPart : ℚ) / (10 ^ fracPart.length)))

/-- `parseFloat(x) || 0`. -/
def parseFloatOr0 (s : List Char) : ℚ := (parseFloatQ s).getD 0

/-- `getAttr(..., 'Point') || '0'` followed by `.replace('%', '')` and
`parseFloat(...) || 0` (an absent attribute is the empty string). -/
def parsePercentAttr (s : String) : ℚ :=
  parseFloatOr0 (replaceFirstL "%".data "".data (if s = "" then "0" else s).data)

/-- Build one adjustment-table item from its (already attribute-extracted)
`Description`, `Point` and `Rate` strings: the price impact is the negated
point value (lines 299–312). Entity decoding of the description is handled
by `unescapeHtmlEntities`, defined with the escaping utilities below. -/
def parseAdjustmentItem (desc pointStr rateStr : String) : Adjustment :=
  { description := desc
    amount := -(parsePercentAttr pointStr)
    rateAdj := parsePercentAttr rateStr }

/-! ## Response Assembler: program ordering

Embeds `programs.sort(...)` (lines 430–435). ECMAScript `Array.prototype.sort`
is stable and, for this consistent comparator, orders by the induced total
preorder; it is modelled by the stable `List.mergeSort` under the
comparator-induced boolean order. -/

/-- `a.status === 'Eligible' ? 0 : 1`. -/
def eligRank (p : Program) : ℚ := if p.status == "Eligible" then 0 else 1

/-- The comparator body: eligibility ranks first, then representative rate. -/
def programCompare (a b : Program) : ℚ :=
  if eligRank a ≠ eligRank b then eligRank a - eligRank b else a.rate - b.rate

/-- The non-positive-comparator order induced by `programCompare`. -/
def programLE (a b : Program) : Bool := decide (programCompare a b ≤ 0)

/-- The assembler's program ordering. -/
def sortPrograms (programs : List Program) : List Program :=
  programs.mergeSort programLE

/-! ## Entity Escaper/Unescaper

Embeds `escapeXml` (lines 100–103), `unescapeXml` (lines 105–108) and
`unescapeHtmlEntities` (lines 110–113): chains of global string replaces,
ampersand first when encoding and last when decoding. -/

/-- `escapeXml` on character lists. -/
def escapeXmlL (s : List Char) : List Char :=
  replaceAllL "'".data "&apos;".data
    (replaceAllL "\"".data "&quot;".data
      (replaceAllL ">".data "&gt;".data
        (replaceAllL "<".data "&lt;".data
          (replaceAllL "&".data "&amp;".data s))))

/-- `escapeXml`, with the `if (!unsafe) return ''` guard. -/
def escapeXml (s : String) : String :=
  if s = "" then "" else ⟨escapeXmlL s.data⟩

/-- `unescapeXml` on character lists. -/
def unescapeXmlL (s : List Char) : List Char :=
  replaceAllL "&amp;".data "&".data
    (replaceAllL "&apos;".data "'".data
      (replaceAllL "&quot;".data "\"".data
        (replaceAllL "&gt;".data ">".data
          (replaceAllL "&lt;".data "<".data s))))

/-- `unescapeXml`, with the `if (!escaped) return ''` guard. -/
def unescapeXml (s : String) : String :=
  if s = "" then "" else ⟨unescapeXmlL s.data⟩

/-- `unescapeHtmlEntities`: the same five decodings in the order
`&gt; &lt; &quot; &apos; &amp;`. -/
def unescapeHtmlEntities (s : String) : String :=
  if s = "" then ""
  else ⟨replaceAllL "&amp;".data "&".data
    (replaceAllL "&apos;".data "'".data
      (replaceAllL "&quot;".data "\"".data
        (replaceAllL "&lt;".data "<".data
          (replaceAllL "&gt;".data ">".data s.data))))⟩

/-! ## Handler outcome (post-parse stages of `handler`, lines 487–642)

The handler's distinct `res.json` shapes are modelled as constructors of an
inductive outcome type. Numeric display extras computed only on the success
path (monthly payment, LTV ratio, debug echoes) do not bear on any claim
and are not carried. -/

/-- The projection of a pre-filter program placed into the `allPrograms`
diagnostic list (lines 570–575); `|| 'N/A'` and `|| 0` guards included. -/
structure ProgramSummary where
  programName : String
  status : String
  rateOptionsCount : ℕ
  sampleRateDesc : String
deriving DecidableEq, Repr

/-- `allPrograms` entry for one program. -/
def summarizeProgram (p : Program) : ProgramSummary :=
  { programName := p.programName
    status := p.status
    rateOptionsCount := p.rateOptions.length
    sampleRateDesc :=
      match p.rateOptions with
      | [] => "N/A"
      | ro :: _ => if ro.description = "" then "N/A" else ro.description }

/-- The parsed result handed from `parseSOAPResponse` to the handler:
programs plus the optional flattened global-adjustments list
(`undefined` when empty). -/
structure ParsedResult where
  programs : List Program
  globalAdjustments : Option (List Adjustment) := none
deriving DecidableEq, Repr

/-- The data carried by the handler's success response (lines 596–642),
restricted to the claim-relevant fields. -/
structure SuccessData where
  rate : ℚ
  apr : ℚ
  points : ℚ
  programName : String
  investorName : String
  programs : List Program
  totalPrograms : ℕ
  globalAdjustments : Option (List Adjustment)
deriving DecidableEq, Repr

/-- The handler's distinct response shapes: transport failure (line 488),
engine-reported error (line 494), the no-qualifying-programs outcome with
its diagnostic list (lines 566–582), the priced success payload
(lines 596–642), and the catch-all server error (line 645). -/
inductive ApiResponse where
  | httpError (status : ℕ)
  | engineError (message : String)
  | noPrograms (message : String) (allPrograms : List ProgramSummary)
  | priced (data : SuccessData)
  | serverError (message : String)
deriving DecidableEq, Repr

/-- The handler's post-parse pipeline (lines 502–642): filter eligibility
and penalties, sanitize adjustments, then either report the
no-qualifying-programs outcome (with the pre-filter `result.programs`
mapped through the shared-object mutation view and summarized) or build
the success payload from the top program. -/
def respondFromParsed (occupancyType loanPurpose : String) (isDSCRRequest : Bool)
    (actualDSCRValue actualDSCRTier : Option String) (result : ParsedResult) :
    ApiResponse :=
  let eligible := sanitizePrograms isDSCRRequest loanPurpose actualDSCRValue
    actualDSCRTier (filterEligiblePPP occupancyType result.programs)
  match eligible with
  | [] =>
    .noPrograms "No programs found. Please adjust your scenario."
      ((result.programs.map (pppMutateView occupancyType)).map summarizeProgram)
  | topProgram :: _ =>
    .priced
      { rate := topProgram.rate
        apr := topProgram.apr
        points := topProgram.points
        programName := topProgram.programName
        investorName := topProgram.investorName
        programs := eligible
        totalPrograms := eligible.length
        globalAdjustments := result.globalAdjustments.map
          (sanitizeAdjList isDSCRRequest loanPurpose actualDSCRValue actualDSCRTier) }

/-- `hasPPP` and `hasPPPInName` classify identically (the empty string is
classified `false` by both). -/
theorem hasPPP_eq_hasPPPInName (text : String) : hasPPP text = hasPPPInName text := by
  by_cases h : text = ""
  · subst h; rfl
  · simp [hasPPP, h]

/-- C3: the penalty classifier marks "2 YR PPP 30yr Fixed" penalty-bearing,
and marks "0 YR PPP 30yr Fixed" and "0MO PPP" (zero-length penalty periods)
not penalty-bearing. -/
theorem hasPPPInName_spec_examples :
    hasPPPInName "2 YR PPP 30yr Fixed" = true ∧
    hasPPPInName "0 YR PPP 30yr Fixed" = false ∧
    hasPPPInName "0MO PPP" = false := by
  exact ⟨by decide, by decide, by decide⟩

/-- C7: an adjustment item with `Point="0.500%"` yields amount exactly
`-0.5`, one with `Point="-0.250%"` yields exactly `0.25`, and in general
the derived price impact is the negation of the percent-stripped parsed
point value. -/
theorem adjustment_point_negation :
    (parseAdjustmentItem "Price Adjustment" "0.500%" "0%").amount = -(0.5 : ℚ) ∧
    (parseAdjustmentItem "Price Adjustment" "-0.250%" "0%").amount = (0.25 : ℚ) ∧
    ∀ desc pointStr rateStr : String,
      (parseAdjustmentItem desc pointStr rateStr).amount = -(parsePercentAttr pointStr) := by
  refine ⟨?_, ?_, fun _ _ _ => rfl⟩ <;>
  · simp +decide [parseAdjustmentItem, parsePercentAttr, parseFloatOr0, parseFloatQ,
      replaceFirstL, dropWS, isWS, digitsVal, List.span, List.span.loop]
    norm_num

/-- C5: for a DSCR scenario with computed ratio 1.312 (formatted "1.312" by
`toFixed(3)`) and tier ">=1.250", a surviving adjustment described
"DSCR: DSCR >= 1.25" is rewritten to exactly "DSCR: 1.312 (>=1.250)" while
its amount and rate-adjustment fields are unchanged (stated for every
amount/rateAdj value). -/
theorem dscr_description_rewrite :
    ∀ amount rateAdj : ℚ,
      sanitizeAdjList true "purchase" (some "1.312") (some ">=1.250")
        [⟨"DSCR: DSCR >= 1.25", amount, rateAdj⟩] =
        [⟨"DSCR: 1.312 (>=1.250)", amount, rateAdj⟩] := by
  intro amount rateAdj
  simp +decide [sanitizeAdjList, keepAdjustment, rewriteDSCRAdj]

/-- On non-DSCR scenarios the rewrite stage is the identity (its condition
starts with `isDSCRRequest &&`). -/
theorem rewriteDSCRAdj_non_dscr (v t : Option String) (a : Adjustment) :
    rewriteDSCRAdj false v t a = a := by
  cases v <;> simp [rewriteDSCRAdj]

/-- A kept adjustment on a non-DSCR scenario has no DSCR-labelled
description. -/
theorem keepAdjustment_non_dscr {loanPurpose : String} {a : Adjustment}
    (h : keepAdjustment false loanPurpose a = true) :
    strContains (strUpper a.description) "DSCR" = false := by
  by_cases hd : strContains (strUpper a.description) "DSCR" = true
  · simp [keepAdjustment, hd] at h
  · simpa using hd

/-- Core of claim C6 at the level of one adjustment list. -/
theorem sanitizeAdjList_non_dscr (loanPurpose : String) (v t : Option String)
    (adjs : List Adjustment) :
    ∀ adj ∈ sanitizeAdjList false loanPurpose v t adjs,
      strContains (strUpper adj.description) "DSCR" = false := by
  intro adj hadj
  obtain ⟨a, ha, rfl⟩ := List.mem_map.mp hadj
  rw [rewriteDSCRAdj_non_dscr]
  exact keepAdjustment_non_dscr (List.mem_filter.mp ha).2

/-- C6: on a non-DSCR scenario, after the sanitizer runs no adjustment with
a DSCR-labelled description (case-insensitive) remains in any surviving
rate option's adjustment list, and none remains in the top-level
global-adjustments list (which is sanitized by the same chain). -/
theorem non_dscr_scenario_drops_dscr_adjustments :
    (∀ (loanPurpose : String) (v t : Option String) (programs : List Program),
      ∀ p ∈ sanitizePrograms false loanPurpose v t programs,
      ∀ ro ∈ p.rateOptions, ∀ adj ∈ ro.adjustments,
        strContains (strUpper adj.description) "DSCR" = false) ∧
    (∀ (loanPurpose : String) (v t : Option String) (adjs : List Adjustment),
      ∀ adj ∈ sanitizeAdjList false loanPurpose v t adjs,
        strContains (strUpper adj.description) "DSCR" = false) := by
  refine ⟨?_, sanitizeAdjList_non_dscr⟩
  intro loanPurpose v t programs p hp ro hro adj hadj
  obtain ⟨q, hq, rfl⟩ := List.mem_map.mp hp
  obtain ⟨r, hr, rfl⟩ := List.mem_map.mp hro
  exact sanitizeAdjList_non_dscr loanPurpose v t r.adjustments adj hadj

def c6Adj : Adjustment := ⟨"LLPA: Investment", 1, 0⟩

def c6OptIn : RateOption :=
  { description := "Opt", adjustments := [⟨"DSCR: DSCR >= 1.25", 1, 0⟩, c6Adj] }

def c6ProgIn : Program := { name := "P", status := "Eligible", rateOptions := [c6OptIn] }

def c6OptOut : RateOption := { description := "Opt", adjustments := [c6Adj] }

def c6ProgOut : Program := { name := "P", status := "Eligible", rateOptions := [c6OptOut] }

theorem non_dscr_scenario_drops_dscr_adjustments_witness :
    strContains (strUpper c6Adj.description) "DSCR" = false :=
  non_dscr_scenario_drops_dscr_adjustments.1 "purchase" none none [c6ProgIn]
    c6ProgOut (by decide) c6OptOut (by decide) c6Adj (by decide)

/-- C2: for a non-investment scenario, every program surviving the
eligibility-and-penalty filter has status exactly "Eligible", neither its
names nor its representative description nor any surviving rate option's
description is penalty-bearing, and it retains at least one rate option —
for every input program list, hence regardless of input order. -/
theorem filterEligiblePPP_invariant :
    ∀ (occupancyType : String) (programs : List Program),
      occupancyType ≠ "investment" →
      ∀ p ∈ filterEligiblePPP occupancyType programs,
        p.status = "Eligible" ∧
        hasPPP p.programName = false ∧ hasPPP p.name = false ∧
        hasPPP p.description = false ∧
        (∀ ro ∈ p.rateOptions, hasPPP ro.description = false) ∧
        p.rateOptions ≠ [] := by
  intro occupancyType programs hocc p hp
  have hbe : (occupancyType == "investment") = false := beq_eq_false_iff_ne.mpr hocc
  simp only [filterEligiblePPP, hbe, Bool.false_eq_true, if_false] at hp
  obtain ⟨q, hq, hfq⟩ := List.mem_filterMap.mp hp
  obtain ⟨hqm, hqe⟩ := List.mem_filter.mp hq
  by_cases h1 : (hasPPP q.programName || hasPPP q.name) = true
  · simp [filterProgramPPP, h1] at hfq
  · by_cases h2 : hasPPP q.description = true
    · simp [filterProgramPPP, h1, h2] at hfq
    · by_cases h3 :
        0 < (q.rateOptions.filter (fun ro => !hasPPP ro.description)).length
      · simp only [filterProgramPPP, h1, h2, h3, Bool.false_eq_true, if_false,
          if_true, if_pos] at hfq
        obtain rfl := Option.some.inj hfq
        have h1' := Bool.or_eq_false_iff.mp (Bool.not_eq_true _ ▸ h1 : _)
        refine ⟨?_, ?_, ?_, ?_, ?_, ?_⟩
        · exact eq_of_beq hqe
        · simpa using h1'.1
        · simpa using h1'.2
        · simpa using h2
        · intro ro hro
          have := (List.mem_filter.mp hro).2
          simpa using this
        · exact List.ne_nil_of_length_pos h3
      · simp [filterProgramPPP, h1, h2, h3] at hfq

def c2Opt : RateOption := { description := "0 YR PPP 30yr Fixed" }

def c2Prog : Program :=
  { name := "NonQM Standard", programName := "NonQM Standard", status := "Eligible",
    description := "0 YR PPP 30yr Fixed", rateOptions := [c2Opt] }

theorem filterEligiblePPP_invariant_witness :
    c2Prog.status = "Eligible" ∧
    hasPPP c2Prog.programName = false ∧ hasPPP c2Prog.name = false ∧
    hasPPP c2Prog.description = false ∧
    (∀ ro ∈ c2Prog.rateOptions, hasPPP ro.description = false) ∧
    c2Prog.rateOptions ≠ [] :=
  filterEligiblePPP_invariant "primary" [c2Prog] (by decide) c2Prog (by decide)

/-- Two folds agree when their step functions agree on every list element. -/
theorem foldl_congr_mem {α β : Type} {f g : β → α → β} {l : List α}
    (h : ∀ a ∈ l, ∀ b, f b a = g b a) : ∀ b, l.foldl f b = l.foldl g b := by
  induction l with
  | nil => intro b; rfl
  | cons x xs ih =>
    intro b
    rw [List.foldl_cons, List.foldl_cons, h x (List.mem_cons_self x xs)]
    exact ih (fun a ha b => h a (List.mem_cons_of_mem x ha) b) (g b x)

/-- `runPass` congruence: two per-option steps that agree on every rate
option of every program produce the same selection. -/
theorem runPass_congr
    {f g : String → Option (ℚ × TargetPricingOption) → RateOption →
      Option (ℚ × TargetPricingOption)}
    {programs : List Program}
    (h : ∀ p ∈ programs, ∀ o ∈ p.rateOptions, ∀ st,
      f (progDisplayName p) st o = g (progDisplayName p) st o) :
    runPass f programs = runPass g programs :=
  foldl_congr_mem
    (fun p hp st => foldl_congr_mem (fun o ho st' => h p hp o ho st') st) none

/-- When a penalty is not permitted and the option is not penalty-bearing,
the pass-1 step is the plain closest-to-100 update. -/
theorem pass1Step_not_ppp {selectedPPP programName : String} {o : RateOption}
    (h : hasPPPInName (strUpper (optionDesc programName o)) = false)
    (st : Option (ℚ × TargetPricingOption)) :
    pass1Step false selectedPPP programName st o = closestStep programName st o := by
  simp [pass1Step, h]

/-- Same for the fallback step. -/
theorem pass2Step_not_ppp {programName : String} {o : RateOption}
    (h : hasPPPInName (strUpper (optionDesc programName o)) = false)
    (st : Option (ℚ × TargetPricingOption)) :
    pass2Step false programName st o = closestStep programName st o := by
  simp [pass2Step, h]

def c1OptA : RateOption :=
  { rate := 7.0, points := 1.2, apr := 7.1, description := "Opt A 30yr Fixed" }

def c1OptB : RateOption :=
  { rate := 7.125, points := 0.5, apr := 7.2, description := "Opt B 30yr Fixed" }

def c1OptC : RateOption :=
  { rate := 7.25, points := -0.2, apr := 7.3, description := "Opt C 30yr Fixed" }

def c1OptD : RateOption :=
  { rate := 7.375, points := -1.3, apr := 7.4, description := "Opt D 30yr Fixed" }

/-- A program whose four rate options imply prices 98.8, 99.5, 100.2
and 101.3. -/
def c1Prog : Program :=
  { name := "NonQM 30yr Fixed", status := "Eligible",
    rateOptions := [c1OptA, c1OptB, c1OptC, c1OptD] }

/-- C1: for every program list and non-investment scenario in which no rate
option is penalty-bearing, the Target-Pricing Selector coincides with the
specification's rule — among options with implied price in [99, 101], the
one closest to 100, first-encountered winning ties, in
program-then-rate-option scan order (`specSelectTarget`); and on the
concrete program with prices 98.8 / 99.5 / 100.2 / 101.3 it returns the
option priced 100.2. -/
theorem getTargetPricing_band_closest :
    (∀ (programs : List Program) (occupancyType prepayPeriod : String),
      occupancyType ≠ "investment" →
      (∀ p ∈ programs, ∀ o ∈ p.rateOptions,
        hasPPPInName (strUpper (optionDesc (progDisplayName p) o)) = false) →
      getTargetPricing programs occupancyType prepayPeriod = specSelectTarget programs) ∧
    getTargetPricing [c1Prog] "primary" "3year" =
      some (mkTargetOption "NonQM 30yr Fixed" c1OptC) ∧
    (mkTargetOption "NonQM 30yr Fixed" c1OptC).price = 100.2 := by
  refine ⟨?_, ?_, ?_⟩
  · intro programs occupancyType prepayPeriod hocc hppp
    have hbe : isPPPAllowed occupancyType = false := by
      simp only [isPPPAllowed]
      exact beq_eq_false_iff_ne.mpr hocc
    have h1 : runPass (pass1Step false
        (if (false : Bool) then getPPPPattern prepayPeriod else "")) programs =
        runPass closestStep programs :=
      runPass_congr (fun p hp o ho st => pass1Step_not_ppp (hppp p hp o ho) st)
    have h2 : runPass (pass2Step false) programs = runPass closestStep programs :=
      runPass_congr (fun p hp o ho st => pass2Step_not_ppp (hppp p hp o ho) st)
    simp only [getTargetPricing, specSelectTarget, hbe, h1, h2]
    cases runPass closestStep programs with
    | none => rfl
    | some pair => rfl
  · simp +decide only [getTargetPricing, runPass, pass1Step, pass2Step, closestStep,
      mkTargetOption, isPPPAllowed, getPPPPattern, progDisplayName, optionDesc,
      c1Prog, c1OptA, c1OptB, c1OptC, c1OptD, List.foldl_cons, List.foldl_nil]
    norm_num [abs_of_pos]
  · show (100 : ℚ) - c1OptC.points = 100.2
    norm_num [c1OptC]

theorem getTargetPricing_band_closest_witness :
    getTargetPricing [c1Prog] "primary" "3year" = specSelectTarget [c1Prog] :=
  getTargetPricing_band_closest.1 [c1Prog] "primary" "3year" (by decide) (by decide)

/-- The comparator's eligibility rank is 0 or 1. -/
theorem eligRank_cases (p : Program) : eligRank p = 0 ∨ eligRank p = 1 := by
  by_cases h : p.status == "Eligible" <;> simp [eligRank, h]

/-- The comparator order in the specification's words: eligible strictly
before non-eligible, and ascending representative rate inside one
eligibility class. -/
theorem programLE_iff (a b : Program) :
    programLE a b = true ↔
      ((a.status = "Eligible" ∧ b.status ≠ "Eligible") ∨
        ((a.status = "Eligible" ↔ b.status = "Eligible") ∧ a.rate ≤ b.rate)) := by
  simp only [programLE, decide_eq_true_eq, programCompare, eligRank]
  by_cases ha : a.status = "Eligible" <;> by_cases hb : b.status = "Eligible" <;>
    simp [ha, hb] <;> constructor <;> intro h <;> linarith

/-- Transitivity of the comparator order. -/
theorem programLE_trans (a b c : Program) :
    programLE a b → programLE b c → programLE a c := by
  intro hab hbc
  simp only [programLE_iff] at *
  rcases hab with ⟨ha, hb⟩ | ⟨hab, hr⟩ <;> rcases hbc with ⟨hb', hc⟩ | ⟨hbc, hr'⟩
  · exact absurd hb' hb
  · exact Or.inl ⟨ha, fun hc => hb (hbc.mpr hc)⟩
  · exact Or.inl ⟨hab.mpr hb', hc⟩
  · exact Or.inr ⟨hab.trans hbc, le_trans hr hr'⟩

/-- Totality of the comparator order. -/
theorem programLE_total (a b : Program) : programLE a b || programLE b a := by
  simp only [Bool.or_eq_true, programLE_iff]
  by_cases ha : a.status = "Eligible" <;> by_cases hb : b.status = "Eligible" <;>
    rcases le_total a.rate b.rate with hr | hr <;> tauto

/-- Ties of the comparator (equal rank and equal rate) are ordered both
ways, so the stable sort keeps their input order. -/
theorem programLE_of_key_eq {a b : Program} (h1 : eligRank a = eligRank b)
    (h2 : a.rate = b.rate) : programLE a b = true := by
  simp [programLE, programCompare, h1, h2]

def c9X : Program := { name := "X", status := "Ineligible", rate := 3.0 }

def c9Y : Program := { name := "Y", status := "Eligible", rate := 5.0 }

def c9Z : Program := { name := "Z", status := "Eligible", rate := 4.0 }

/-- C9: the assembler's program ordering is a permutation of the input that
is sorted by the comparator order (eligible-first, then ascending
representative rate — `programLE_iff` restates that order in plain terms as
part of the theorem), keeps equal-key programs in their original relative
order, and on statuses [Ineligible, Eligible, Eligible] with rates
[3.0, 5.0, 4.0] produces Eligible-4.0, Eligible-5.0, Ineligible-3.0. -/
theorem sortPrograms_spec :
    (∀ ps : List Program, (sortPrograms ps).Perm ps) ∧
    (∀ ps : List Program, (sortPrograms ps).Pairwise (fun a b => programLE a b = true)) ∧
    (∀ a b : Program, programLE a b = true ↔
      ((a.status = "Eligible" ∧ b.status ≠ "Eligible") ∨
        ((a.status = "Eligible" ↔ b.status = "Eligible") ∧ a.rate ≤ b.rate))) ∧
    (∀ (ps : List Program) (k : ℚ × ℚ),
      (sortPrograms ps).filter (fun p => decide ((eligRank p, p.rate) = k)) =
        ps.filter (fun p => decide ((eligRank p, p.rate) = k))) ∧
    sortPrograms [c9X, c9Y, c9Z] = [c9Z, c9Y, c9X] := by
  refine ⟨?_, ?_, programLE_iff, ?_, ?_⟩
  · intro ps; exact List.mergeSort_perm ps programLE
  · intro ps; exact List.sorted_mergeSort programLE_trans programLE_total ps
  · intro ps k
    have hfilter : ∀ a ∈ ps.filter (fun p => decide ((eligRank p, p.rate) = k)),
        (eligRank a, a.rate) = k := by
      intro a ha
      simpa using (List.mem_filter.mp ha).2
    have hpair : (ps.filter (fun p => decide ((eligRank p, p.rate) = k))).Pairwise
        (fun a b => programLE a b = true) := by
      refine List.pairwise_of_forall_mem_list ?_
      intro a ha b hb
      have h1 := hfilter a ha
      have h2 := hfilter b hb
      exact programLE_of_key_eq
        (by rw [(Prod.mk.injEq _ _ _ _).mp (h1.trans h2.symm) |>.1])
        ((Prod.mk.injEq _ _ _ _).mp (h1.trans h2.symm)).2
    have hsub : (ps.filter (fun p => decide ((eligRank p, p.rate) = k))).Sublist
        (List.mergeSort ps programLE) :=
      List.sublist_mergeSort programLE_trans programLE_total hpair
        (List.filter_sublist ps)
    have hself : (ps.filter (fun p => decide ((eligRank p, p.rate) = k))).filter
        (fun p => decide ((eligRank p, p.rate) = k)) =
        ps.filter (fun p => decide ((eligRank p, p.rate) = k)) :=
      List.filter_eq_self.mpr (fun a ha => (List.mem_filter.mp ha).2)
    have hsub2 : (ps.filter (fun p => decide ((eligRank p, p.rate) = k))).Sublist
        ((List.mergeSort ps programLE).filter
          (fun p => decide ((eligRank p, p.rate) = k))) := by
      rw [← hself]
      exact hsub.filter _
    have hlen : ((List.mergeSort ps programLE).filter
        (fun p => decide ((eligRank p, p.rate) = k))).length =
        (ps.filter (fun p => decide ((eligRank p, p.rate) = k))).length :=
      ((List.mergeSort_perm ps programLE).filter _).length_eq
    exact (hsub2.eq_of_length hlen.symm).symm
  · have h1 : programLE c9X c9Y = false := by
      simp [programLE, programCompare, eligRank, c9X, c9Y]
    have h2 : programLE c9Y c9Z = false := by
      simp [programLE, programCompare, eligRank, c9Y, c9Z]
      norm_num
    have h3 : programLE c9Y c9X = true := by
      simp [programLE, programCompare, eligRank, c9X, c9Y]
    have h4 : programLE c9Z c9Y = true := by
      simp [programLE, programCompare, eligRank, c9Y, c9Z]
      norm_num
    simp [sortPrograms, List.mergeSort, List.splitInTwo, List.splitAt_eq, List.merge,
      h1, h2, h3, h4]

/-- The shared-object mutation of the penalty filter touches only
`rateOptions`. -/
theorem pppMutateView_programName (occupancyType : String) (p : Program) :
    (pppMutateView occupancyType p).programName = p.programName := by
  unfold pppMutateView; split_ifs <;> rfl

/-- Same for the status field. -/
theorem pppMutateView_status (occupancyType : String) (p : Program) :
    (pppMutateView occupancyType p).status = p.status := by
  unfold pppMutateView; split_ifs <;> rfl

/-- C10: when the eligibility/penalty filter removes every parsed program,
the handler produces the dedicated no-qualifying-programs outcome: its
diagnostic `allPrograms` list is the pre-filter `result.programs` (one
summary per pre-filter program, preserving each program's name and status in
order), and the outcome is a different response shape from every hard
failure (HTTP error, engine error, server error) and from the priced
success shape. -/
theorem empty_filter_no_programs_outcome :
    ∀ (occupancyType loanPurpose : String) (isDSCRRequest : Bool)
      (v t : Option String) (result : ParsedResult),
      filterEligiblePPP occupancyType result.programs = [] →
      respondFromParsed occupancyType loanPurpose isDSCRRequest v t result =
        ApiResponse.noPrograms "No programs found. Please adjust your scenario."
          ((result.programs.map (pppMutateView occupancyType)).map summarizeProgram) ∧
      ((result.programs.map (pppMutateView occupancyType)).map summarizeProgram).map
          (fun s => s.programName) =
        result.programs.map (fun p => p.programName) ∧
      ((result.programs.map (pppMutateView occupancyType)).map summarizeProgram).map
          (fun s => s.status) =
        result.programs.map (fun p => p.status) ∧
      (∀ (n : ℕ) (msg : String) (d : SuccessData),
        respondFromParsed occupancyType loanPurpose isDSCRRequest v t result ≠
            ApiResponse.httpError n ∧
          respondFromParsed occupancyType loanPurpose isDSCRRequest v t result ≠
            ApiResponse.engineError msg ∧
          respondFromParsed occupancyType loanPurpose isDSCRRequest v t result ≠
            ApiResponse.serverError msg ∧
          respondFromParsed occupancyType loanPurpose isDSCRRequest v t result ≠
            ApiResponse.priced d) := by
  intro occupancyType loanPurpose isDSCRRequest v t result hempty
  have hresp : respondFromParsed occupancyType loanPurpose isDSCRRequest v t result =
      ApiResponse.noPrograms "No programs found. Please adjust your scenario."
        ((result.programs.map (pppMutateView occupancyType)).map summarizeProgram) := by
    simp [respondFromParsed, hempty, sanitizePrograms]
  refine ⟨hresp, ?_, ?_, ?_⟩
  · simp only [List.map_map]
    refine List.map_congr_left ?_
    intro p hp
    simp [Function.comp, summarizeProgram, pppMutateView_programName]
  · simp only [List.map_map]
    refine List.map_congr_left ?_
    intro p hp
    simp [Function.comp, summarizeProgram, pppMutateView_status]
  · intro n msg d
    rw [hresp]
    exact ⟨by simp, by simp, by simp, by simp⟩

def c10Prog : Program := { name := "NQM Flex", programName := "NQM Flex", status := "Ineligible" }

def c10Result : ParsedResult := { programs := [c10Prog] }

theorem empty_filter_no_programs_outcome_witness :
    respondFromParsed "primary" "purchase" false none none c10Result =
      ApiResponse.noPrograms "No programs found. Please adjust your scenario."
        ((c10Result.programs.map (pppMutateView "primary")).map summarizeProgram) :=
  (empty_filter_no_programs_outcome "primary" "purchase" false none none c10Result
    (by decide)).1

/-! ## Round-trip behaviour of the entity escaper (claim C8)

The proofs below characterise `escapeXml` as a per-character block expansion
and push each stage of `unescapeXml` through the block structure. -/

/-- Expand a string block-wise, one block per character. -/
def expand (f : Char → List Char) : List Char → List Char
  | [] => []
  | c :: s => f c ++ expand f s

/-- Block maps after each successive `escapeXml` replacement stage. -/
def escStage1 (c : Char) : List Char :=
  if c = '&' then ['&', 'a', 'm', 'p', ';'] else [c]

def escStage2 (c : Char) : List Char :=
  if c = '<' then ['&', 'l', 't', ';'] else escStage1 c

def escStage3 (c : Char) : List Char :=
  if c = '>' then ['&', 'g', 't', ';'] else escStage2 c

def escStage4 (c : Char) : List Char :=
  if c = '"' then ['&', 'q', 'u', 'o', 't', ';'] else escStage3 c

/-- The block map of a fully escaped character. -/
def escStage5 (c : Char) : List Char :=
  if c = '\'' then ['&', 'a', 'p', 'o', 's', ';'] else escStage4 c

/-- Block maps after each successive `unescapeXml` replacement stage. -/
def unStage1 (c : Char) : List Char := if c = '<' then ['<'] else escStage5 c

def unStage2 (c : Char) : List Char := if c = '>' then ['>'] else unStage1 c

def unStage3 (c : Char) : List Char := if c = '"' then ['"'] else unStage2 c

def unStage4 (c : Char) : List Char := if c = '\'' then ['\''] else unStage3 c

def unStage5 (c : Char) : List Char := if c = '&' then ['&'] else unStage4 c

theorem unStage5_eq (c : Char) : unStage5 c = [c] := by
  unfold unStage5 unStage4 unStage3 unStage2 unStage1 escStage5 escStage4 escStage3
    escStage2 escStage1
  split_ifs <;> simp_all

theorem expand_unStage5 (s : List Char) : expand unStage5 s = s := by
  induction s with
  | nil => rfl
  | cons c cs ih => rw [expand, unStage5_eq, ih]; rfl

theorem replaceAllL_nil (pat repl : List Char) : replaceAllL pat repl [] = [] := by
  simp [replaceAllL]

/-- A prefix of itself followed by anything. -/
theorem isPrefixL_self_append (p t : List Char) : isPrefixL p (p ++ t) = true := by
  induction p with
  | nil => rfl
  | cons c cs ih => simp [isPrefixL, ih]

/-- The scanner consumes a match at the head and resumes after it. -/
theorem replaceAllL_cons_match (h : Char) (p r t : List Char) :
    replaceAllL (h :: p) r ((h :: p) ++ t) = r ++ replaceAllL (h :: p) r t := by
  show replaceAllL (h :: p) r (h :: (p ++ t)) = _
  rw [replaceAllL]
  rw [if_pos ⟨by simpa using isPrefixL_self_append (h :: p) t, by simp⟩]
  congr 1
  show replaceAllL (h :: p) r ((p ++ t).drop p.length) = _
  rw [List.drop_left' rfl]

/-- The scanner steps over a position where the pattern does not match. -/
theorem replaceAllL_cons_nomatch (pat r : List Char) (c : Char) (t : List Char)
    (h : isPrefixL pat (c :: t) = false) :
    replaceAllL pat r (c :: t) = c :: replaceAllL pat r t := by
  rw [replaceAllL, if_neg]
  rintro ⟨h1, -⟩
  rw [h] at h1
  exact Bool.false_ne_true h1

/-- Stepping over one character that differs from the pattern's head. -/
theorem replaceAllL_cons_skip (h : Char) (p r : List Char) (c : Char) (hc : h ≠ c)
    (t : List Char) :
    replaceAllL (h :: p) r (c :: t) = c :: replaceAllL (h :: p) r t := by
  refine replaceAllL_cons_nomatch _ _ _ _ ?_
  have : (h == c) = false := beq_eq_false_iff_ne.mpr hc
  simp [isPrefixL, this]

/-- A mismatch certified inside `B` alone persists when `B` is extended. -/
theorem isPrefixL_append_false (pat : List Char) :
    ∀ (B t : List Char), isPrefixL B pat = false → isPrefixL pat B = false →
      isPrefixL pat (B ++ t) = false := by
  induction pat with
  | nil => intro B t h1 h2; cases B <;> simp [isPrefixL] at h2
  | cons p ps ih =>
    intro B t h1 h2
    cases B with
    | nil => simp [isPrefixL] at h1
    | cons b bs =>
      simp only [isPrefixL, List.cons_append] at h1 h2 ⊢
      by_cases hpb : p = b
      · subst hpb
        simp only [beq_self_eq_true, Bool.true_and] at h1 h2 ⊢
        exact ih bs t h1 h2
      · have : (p == b) = false := beq_eq_false_iff_ne.mpr hpb
        simp [this]

/-- The scanner steps over a whole block none of whose suffixes can start a
match (stated so that, for concrete block and pattern, the hypothesis is
decidable). -/
theorem replaceAllL_append_skip (pat r : List Char) :
    ∀ (B t : List Char),
      (∀ i, i < B.length →
        isPrefixL (B.drop i) pat = false ∧ isPrefixL pat (B.drop i) = false) →
      replaceAllL pat r (B ++ t) = B ++ replaceAllL pat r t := by
  intro B
  induction B with
  | nil => intro t _; rfl
  | cons b bs ih =>
    intro t hB
    have h0 := hB 0 (by simp)
    simp only [List.drop_zero] at h0
    have hfalse : isPrefixL pat ((b :: bs) ++ t) = false :=
      isPrefixL_append_false pat (b :: bs) t h0.1 h0.2
    rw [List.cons_append] at hfalse ⊢
    rw [replaceAllL_cons_nomatch _ _ _ _ hfalse]
    rw [ih t (fun i hi => hB (i + 1) (by simpa using Nat.succ_lt_succ hi))]
    simp

/-- `expand` with singleton blocks is the identity. -/
theorem expand_id (s : List Char) : expand (fun c => [c]) s = s := by
  induction s with
  | nil => rfl
  | cons c cs ih => rw [expand, ih]; rfl

/-- The block-skip condition for a singleton block whose character differs
from the pattern's head. -/
theorem skip_single (p : List Char) (c : Char) (hc : c ≠ '&') :
    ∀ i, i < ([c] : List Char).length →
      isPrefixL (([c] : List Char).drop i) ('&' :: p) = false ∧
      isPrefixL ('&' :: p) (([c] : List Char).drop i) = false := by
  intro i hi
  have h0 : i = 0 := by simpa using hi
  subst h0
  have h1 : (c == '&') = false := beq_eq_false_iff_ne.mpr hc
  have h2 : ('&' == c) = false := beq_eq_false_iff_ne.mpr (Ne.symm hc)
  exact ⟨by simp [isPrefixL, h1], by simp [isPrefixL, h2]⟩

/-- One global-replace stage pushed through a block expansion: the block of
`d` is exactly the pattern and is replaced; every other block can never
start a match. -/
theorem replaceAllL_stage (pat repl : List Char) (f g : Char → List Char) (d : Char)
    (hpat : pat ≠ []) (hd : f d = pat) (hgd : g d = repl)
    (hne : ∀ c, c ≠ d → g c = f c ∧
      (∀ i, i < (f c).length →
        isPrefixL ((f c).drop i) pat = false ∧ isPrefixL pat ((f c).drop i) = false)) :
    ∀ s : List Char, replaceAllL pat repl (expand f s) = expand g s := by
  intro s
  induction s with
  | nil => rw [expand, expand, replaceAllL_nil]
  | cons c cs ih =>
    rw [expand, expand]
    by_cases h : c = d
    · subst h
      rw [hd, hgd]
      cases pat with
      | nil => exact absurd rfl hpat
      | cons ph pt =>
        rw [replaceAllL_cons_match ph pt repl (expand f cs), ih]
    · obtain ⟨hg, hskip⟩ := hne c h
      rw [hg, replaceAllL_append_skip pat repl (f c) (expand f cs) hskip, ih]

/-- Stage 1 of `escapeXml`: `&` becomes `&amp;`. -/
theorem escape_stage1 (s : List Char) :
    replaceAllL ['&'] ['&', 'a', 'm', 'p', ';'] s = expand escStage1 s := by
  have h := replaceAllL_stage ['&'] ['&', 'a', 'm', 'p', ';'] (fun c => [c]) escStage1 '&'
    (by simp) rfl (by decide)
    (fun c hc => ⟨by simp [escStage1, hc], by
      intro i hi
      have h0 : i = 0 := by simpa using hi
      subst h0
      have h1 : (c == '&') = false := beq_eq_false_iff_ne.mpr hc
      have h2 : ('&' == c) = false := beq_eq_false_iff_ne.mpr (Ne.symm hc)
      exact ⟨by simp [isPrefixL, h1], by simp [isPrefixL, h2]⟩⟩) s
  rw [← h, expand_id]

/-- Stage 2 of `escapeXml`: `<` becomes `&lt;`. -/
theorem escape_stage2 (s : List Char) :
    replaceAllL ['<'] ['&', 'l', 't', ';'] (expand escStage1 s) = expand escStage2 s := by
  refine replaceAllL_stage _ _ _ _ '<' (by simp) (by decide) (by decide) ?_ s
  intro c hc
  refine ⟨by simp [escStage2, hc], ?_⟩
  by_cases h1 : c = '&'
  · subst h1; rw [show escStage1 '&' = ['&', 'a', 'm', 'p', ';'] from by decide]; decide
  · rw [show escStage1 c = [c] from by simp [escStage1, h1]]
    intro i hi
    have h0 : i = 0 := by simpa using hi
    subst h0
    have hb1 : (c == '<') = false := beq_eq_false_iff_ne.mpr hc
    have hb2 : ('<' == c) = false := beq_eq_false_iff_ne.mpr (Ne.symm hc)
    exact ⟨by simp [isPrefixL, hb1], by simp [isPrefixL, hb2]⟩

/-- Stage 3 of `escapeXml`: `>` becomes `&gt;`. -/
theorem escape_stage3 (s : List Char) :
    replaceAllL ['>'] ['&', 'g', 't', ';'] (expand escStage2 s) = expand escStage3 s := by
  refine replaceAllL_stage _ _ _ _ '>' (by simp) (by decide) (by decide) ?_ s
  intro c hc
  refine ⟨by simp [escStage3, hc], ?_⟩
  by_cases h1 : c = '&'
  · subst h1; rw [show escStage2 '&' = ['&', 'a', 'm', 'p', ';'] from by decide]; decide
  · by_cases h2 : c = '<'
    · subst h2; rw [show escStage2 '<' = ['&', 'l', 't', ';'] from by decide]; decide
    · rw [show escStage2 c = [c] from by simp [escStage2, escStage1, h1, h2]]
      intro i hi
      have h0 : i = 0 := by simpa using hi
      subst h0
      have hb1 : (c == '>') = false := beq_eq_false_iff_ne.mpr hc
      have hb2 : ('>' == c) = false := beq_eq_false_iff_ne.mpr (Ne.symm hc)
      exact ⟨by simp [isPrefixL, hb1], by simp [isPrefixL, hb2]⟩

/-- Stage 4 of `escapeXml`: `"` becomes `&quot;`. -/
theorem escape_stage4 (s : List Char) :
    replaceAllL ['"'] ['&', 'q', 'u', 'o', 't', ';'] (expand escStage3 s) =
      expand escStage4 s := by
  refine replaceAllL_stage _ _ _ _ '"' (by simp) (by decide) (by decide) ?_ s
  intro c hc
  refine ⟨by simp [escStage4, hc], ?_⟩
  by_cases h1 : c = '&'
  · subst h1; rw [show escStage3 '&' = ['&', 'a', 'm', 'p', ';'] from by decide]; decide
  · by_cases h2 : c = '<'
    · subst h2; rw [show escStage3 '<' = ['&', 'l', 't', ';'] from by decide]; decide
    · by_cases h3 : c = '>'
      · subst h3; rw [show escStage3 '>' = ['&', 'g', 't', ';'] from by decide]; decide
      · rw [show escStage3 c = [c] from by simp [escStage3, escStage2, escStage1, h1, h2, h3]]
        intro i hi
        have h0 : i = 0 := by simpa using hi
        subst h0
        have hb1 : (c == '"') = false := beq_eq_false_iff_ne.mpr hc
        have hb2 : ('"' == c) = false := beq_eq_false_iff_ne.mpr (Ne.symm hc)
        exact ⟨by simp [isPrefixL, hb1], by simp [isPrefixL, hb2]⟩

/-- Stage 5 of `escapeXml`: `'` becomes `&apos;`. -/
theorem escape_stage5 (s : List Char) :
    replaceAllL ['\''] ['&', 'a', 'p', 'o', 's', ';'] (expand escStage4 s) =
      expand escStage5 s := by
  refine replaceAllL_stage _ _ _ _ '\'' (by simp) (by decide) (by decide) ?_ s
  intro c hc
  refine ⟨by simp [escStage5, hc], ?_⟩
  by_cases h1 : c = '&'
  · subst h1; rw [show escStage4 '&' = ['&', 'a', 'm', 'p', ';'] from by decide]; decide
  · by_cases h2 : c = '<'
    · subst h2; rw [show escStage4 '<' = ['&', 'l', 't', ';'] from by decide]; decide
    · by_cases h3 : c = '>'
      · subst h3; rw [show escStage4 '>' = ['&', 'g', 't', ';'] from by decide]; decide
      · by_cases h4 : c = '"'
        · subst h4; rw [show escStage4 '"' = ['&', 'q', 'u', 'o', 't', ';'] from by decide]
          decide
        · rw [show escStage4 c = [c] from by
            simp [escStage4, escStage3, escStage2, escStage1, h1, h2, h3, h4]]
          intro i hi
          have h0 : i = 0 := by simpa using hi
          subst h0
          have hb1 : (c == '\'') = false := beq_eq_false_iff_ne.mpr hc
          have hb2 : ('\'' == c) = false := beq_eq_false_iff_ne.mpr (Ne.symm hc)
          exact ⟨by simp [isPrefixL, hb1], by simp [isPrefixL, hb2]⟩

/-- `escapeXml` is the per-character block expansion `escStage5`. -/
theorem escapeXmlL_eq_expand (s : List Char) : escapeXmlL s = expand escStage5 s := by
  unfold escapeXmlL
  rw [show ("&".data : List Char) = ['&'] from rfl,
    show ("&amp;".data : List Char) = ['&', 'a', 'm', 'p', ';'] from rfl,
    show ("<".data : List Char) = ['<'] from rfl,
    show ("&lt;".data : List Char) = ['&', 'l', 't', ';'] from rfl,
    show (">".data : List Char) = ['>'] from rfl,
    show ("&gt;".data : List Char) = ['&', 'g', 't', ';'] from rfl,
    show ("\"".data : List Char) = ['"'] from rfl,
    show ("&quot;".data : List Char) = ['&', 'q', 'u', 'o', 't', ';'] from rfl,
    show ("'".data : List Char) = ['\''] from rfl,
    show ("&apos;".data : List Char) = ['&', 'a', 'p', 'o', 's', ';'] from rfl]
  rw [escape_stage1, escape_stage2, escape_stage3, escape_stage4, escape_stage5]

/-- Stage 1 of `unescapeXml` on an escaped string: `&lt;` back to `<`. -/
theorem unescape_stage1 (s : List Char) :
    replaceAllL ['&', 'l', 't', ';'] ['<'] (expand escStage5 s) = expand unStage1 s := by
  refine replaceAllL_stage _ _ _ _ '<' (by simp) (by decide) (by decide) ?_ s
  intro c hc
  refine ⟨by simp [unStage1, hc], ?_⟩
  by_cases h1 : c = '&'
  · subst h1; rw [show escStage5 '&' = ['&', 'a', 'm', 'p', ';'] from by decide]; decide
  · by_cases h3 : c = '>'
    · subst h3; rw [show escStage5 '>' = ['&', 'g', 't', ';'] from by decide]; decide
    · by_cases h4 : c = '"'
      · subst h4; rw [show escStage5 '"' = ['&', 'q', 'u', 'o', 't', ';'] from by decide]
        decide
      · by_cases h5 : c = '\''
        · subst h5; rw [show escStage5 '\'' = ['&', 'a', 'p', 'o', 's', ';'] from by decide]
          decide
        · rw [show escStage5 c = [c] from by
            simp [escStage5, escStage4, escStage3, escStage2, escStage1, h1, hc, h3, h4, h5]]
          exact skip_single _ c h1

/-- Stage 2 of `unescapeXml`: `&gt;` back to `>`. -/
theorem unescape_stage2 (s : List Char) :
    replaceAllL ['&', 'g', 't', ';'] ['>'] (expand unStage1 s) = expand unStage2 s := by
  refine replaceAllL_stage _ _ _ _ '>' (by simp) (by decide) (by decide) ?_ s
  intro c hc
  refine ⟨by simp [unStage2, hc], ?_⟩
  by_cases h1 : c = '&'
  · subst h1; rw [show unStage1 '&' = ['&', 'a', 'm', 'p', ';'] from by decide]; decide
  · by_cases h2 : c = '<'
    · subst h2; rw [show unStage1 '<' = ['<'] from by decide]; decide
    · by_cases h4 : c = '"'
      · subst h4; rw [show unStage1 '"' = ['&', 'q', 'u', 'o', 't', ';'] from by decide]
        decide
      · by_cases h5 : c = '\''
        · subst h5; rw [show unStage1 '\'' = ['&', 'a', 'p', 'o', 's', ';'] from by decide]
          decide
        · rw [show unStage1 c = [c] from by
            simp [unStage1, escStage5, escStage4, escStage3, escStage2, escStage1,
              h1, h2, hc, h4, h5]]
          exact skip_single _ c h1

/-- Stage 3 of `unescapeXml`: `&quot;` back to `"`. -/
theorem unescape_stage3 (s : List Char) :
    replaceAllL ['&', 'q', 'u', 'o', 't', ';'] ['"'] (expand unStage2 s) =
      expand unStage3 s := by
  refine replaceAllL_stage _ _ _ _ '"' (by simp) (by decide) (by decide) ?_ s
  intro c hc
  refine ⟨by simp [unStage3, hc], ?_⟩
  by_cases h1 : c = '&'
  · subst h1; rw [show unStage2 '&' = ['&', 'a', 'm', 'p', ';'] from by decide]; decide
  · by_cases h2 : c = '<'
    · subst h2; rw [show unStage2 '<' = ['<'] from by decide]; decide
    · by_cases h3 : c = '>'
      · subst h3; rw [show unStage2 '>' = ['>'] from by decide]; decide
      · by_cases h5 : c = '\''
        · subst h5; rw [show unStage2 '\'' = ['&', 'a', 'p', 'o', 's', ';'] from by decide]
          decide
        · rw [show unStage2 c = [c] from by
            simp [unStage2, unStage1, escStage5, escStage4, escStage3, escStage2, escStage1,
              h1, h2, h3, hc, h5]]
          exact skip_single _ c h1

/-- Stage 4 of `unescapeXml`: `&apos;` back to `'`. -/
theorem unescape_stage4 (s : List Char) :
    replaceAllL ['&', 'a', 'p', 'o', 's', ';'] ['\''] (expand unStage3 s) =
      expand unStage4 s := by
  refine replaceAllL_stage _ _ _ _ '\'' (by simp) (by decide) (by decide) ?_ s
  intro c hc
  refine ⟨by simp [unStage4, hc], ?_⟩
  by_cases h1 : c = '&'
  · subst h1; rw [show unStage3 '&' = ['&', 'a', 'm', 'p', ';'] from by decide]; decide
  · by_cases h2 : c = '<'
    · subst h2; rw [show unStage3 '<' = ['<'] from by decide]; decide
    · by_cases h3 : c = '>'
      · subst h3; rw [show unStage3 '>' = ['>'] from by decide]; decide
      · by_cases h4 : c = '"'
        · subst h4; rw [show unStage3 '"' = ['"'] from by decide]; decide
        · rw [show unStage3 c = [c] from by
            simp [unStage3, unStage2, unStage1, escStage5, escStage4, escStage3, escStage2,
              escStage1, h1, h2, h3, h4, hc]]
          exact skip_single _ c h1

/-- Stage 5 of `unescapeXml`: `&amp;` back to `&`. -/
theorem unescape_stage5 (s : List Char) :
    replaceAllL ['&', 'a', 'm', 'p', ';'] ['&'] (expand unStage4 s) =
      expand unStage5 s := by
  refine replaceAllL_stage _ _ _ _ '&' (by simp) (by decide) (by decide) ?_ s
  intro c hc
  refine ⟨by simp [unStage5, hc], ?_⟩
  by_cases h2 : c = '<'
  · subst h2; rw [show unStage4 '<' = ['<'] from by decide]; decide
  · by_cases h3 : c = '>'
    · subst h3; rw [show unStage4 '>' = ['>'] from by decide]; decide
    · by_cases h4 : c = '"'
      · subst h4; rw [show unStage4 '"' = ['"'] from by decide]; decide
      · by_cases h5 : c = '\''
        · subst h5; rw [show unStage4 '\'' = ['\''] from by decide]; decide
        · rw [show unStage4 c = [c] from by
            simp [unStage4, unStage3, unStage2, unStage1, escStage5, escStage4, escStage3,
              escStage2, escStage1, hc, h2, h3, h4, h5]]
          exact skip_single _ c hc

/-- One unescape pass exactly undoes one escape pass, for every string. -/
theorem unescapeXmlL_escapeXmlL (s : List Char) :
    unescapeXmlL (escapeXmlL s) = s := by
  rw [escapeXmlL_eq_expand]
  unfold unescapeXmlL
  rw [show ("&lt;".data : List Char) = ['&', 'l', 't', ';'] from rfl,
    show ("<".data : List Char) = ['<'] from rfl,
    show ("&gt;".data : List Char) = ['&', 'g', 't', ';'] from rfl,
    show (">".data : List Char) = ['>'] from rfl,
    show ("&quot;".data : List Char) = ['&', 'q', 'u', 'o', 't', ';'] from rfl,
    show ("\"".data : List Char) = ['"'] from rfl,
    show ("&apos;".data : List Char) = ['&', 'a', 'p', 'o', 's', ';'] from rfl,
    show ("'".data : List Char) = ['\''] from rfl,
    show ("&amp;".data : List Char) = ['&', 'a', 'm', 'p', ';'] from rfl,
    show ("&".data : List Char) = ['&'] from rfl]
  rw [unescape_stage1, unescape_stage2, unescape_stage3, unescape_stage4,
    unescape_stage5, expand_unStage5]

/-- A global replace of a pattern that does not occur is the identity. -/
theorem replaceAllL_id_of_not_contains (pat r : List Char) :
    ∀ s : List Char, containsL pat s = false → replaceAllL pat r s = s := by
  intro s
  induction s with
  | nil => intro _; exact replaceAllL_nil _ _
  | cons c cs ih =>
    intro h
    rw [containsL] at h
    obtain ⟨h1, h2⟩ := Bool.or_eq_false_iff.mp h
    rw [replaceAllL_cons_nomatch _ _ _ _ h1, ih h2]

/-- Whether a string contains none of the five XML entity sequences the
escaper/unescaper handle. -/
def noXmlEntities (s : String) : Bool :=
  !(containsL "&lt;".data s.data || containsL "&gt;".data s.data ||
    containsL "&quot;".data s.data || containsL "&apos;".data s.data ||
    containsL "&amp;".data s.data)

/-- An entity-free string is a fixed point of one unescape pass. -/
theorem unescapeXmlL_id_of_noEntities (s : String) (h : noXmlEntities s = true) :
    unescapeXmlL s.data = s.data := by
  unfold noXmlEntities at h
  rw [Bool.not_eq_true'] at h
  obtain ⟨hr, h5⟩ := Bool.or_eq_false_iff.mp h
  obtain ⟨hr, h4⟩ := Bool.or_eq_false_iff.mp hr
  obtain ⟨hr, h3⟩ := Bool.or_eq_false_iff.mp hr
  obtain ⟨h1, h2⟩ := Bool.or_eq_false_iff.mp hr
  unfold unescapeXmlL
  rw [replaceAllL_id_of_not_contains _ _ _ h1,
    replaceAllL_id_of_not_contains _ _ _ h2,
    replaceAllL_id_of_not_contains _ _ _ h3,
    replaceAllL_id_of_not_contains _ _ _ h4,
    replaceAllL_id_of_not_contains _ _ _ h5]

/-- `escapeXml` with the empty-string guard removed. -/
theorem escapeXml_eq (s : String) : escapeXml s = ⟨escapeXmlL s.data⟩ := by
  by_cases hs : s = ""
  · subst hs
    show ("" : String) = ⟨escapeXmlL "".data⟩
    rw [show ("".data : List Char) = [] from rfl]
    unfold escapeXmlL
    rw [replaceAllL_nil, replaceAllL_nil, replaceAllL_nil, replaceAllL_nil, replaceAllL_nil]
  · simp [escapeXml, hs]

/-- `unescapeXml` with the empty-string guard removed. -/
theorem unescapeXml_eq (s : String) : unescapeXml s = ⟨unescapeXmlL s.data⟩ := by
  by_cases hs : s = ""
  · subst hs
    show ("" : String) = ⟨unescapeXmlL "".data⟩
    rw [show ("".data : List Char) = [] from rfl]
    unfold unescapeXmlL
    rw [replaceAllL_nil, replaceAllL_nil, replaceAllL_nil, replaceAllL_nil, replaceAllL_nil]
  · simp [unescapeXml, hs]

/-- C8: escaping any entity-free string and unescaping the result twice
returns the original string unchanged — the first unescape pass undoes the
escape pass exactly, and the second pass finds no entity left to decode. -/
theorem escape_then_unescape_twice (s : String) (h : noXmlEntities s = true) :
    unescapeXml (unescapeXml (escapeXml s)) = s := by
  rw [escapeXml_eq, unescapeXml_eq, unescapeXml_eq]
  show (⟨unescapeXmlL (unescapeXmlL (escapeXmlL s.data))⟩ : String) = s
  rw [unescapeXmlL_escapeXmlL, unescapeXmlL_id_of_noEntities s h]

theorem escape_then_unescape_twice_witness :
    noXmlEntities "a<b & \"c\'d\"" = true ∧
      unescapeXml (unescapeXml (escapeXml "a<b & \"c\'d\"")) = "a<b & \"c\'d\"" :=
  ⟨by decide, escape_then_unescape_twice "a<b & \"c\'d\"" (by decide)⟩

/-! ## The zero-period exemption dominates the penalty markers (claim C4) -/

/-- Boolean prefix test agrees with `List.IsPrefix`. -/
theorem isPrefixL_iff {p s : List Char} : isPrefixL p s = true ↔ p <+: s := by
  induction p generalizing s with
  | nil => simp [isPrefixL]
  | cons a ps ih =>
    cases s with
    | nil => simp [isPrefixL]
    | cons b t => simp [isPrefixL, ih, List.cons_prefix_cons]

/-- Boolean substring test agrees with `List.IsInfix`. -/
theorem containsL_iff {p s : List Char} : containsL p s = true ↔ p <:+: s := by
  induction s with
  | nil => simp [containsL, isPrefixL_iff]
  | cons c t ih => simp [containsL, isPrefixL_iff, ih, List.infix_cons_iff]

/-- Substring containment is transitive. -/
theorem containsL_trans {s p q : List Char} (h1 : containsL p s = true)
    (h2 : containsL q p = true) : containsL q s = true :=
  containsL_iff.mpr ((containsL_iff.mp h2).trans (containsL_iff.mp h1))

def c4Opt : RateOption :=
  { rate := 7.5, points := 0.5, apr := 7.6, description := "10 YR PPP 30yr Fixed" }

def c4Prog : Program :=
  { name := "NonQM DSCR", programName := "NonQM DSCR", status := "Eligible",
    description := "10 YR PPP 30yr Fixed", rateOptions := [c4Opt] }

/-- C4: the zero-period exemption is a plain substring test evaluated
first, so any text containing `0MO PPP`, `0 YR PPP` or `0YR PPP`
(upper-cased) is classified not penalty-bearing whatever else it contains;
since `10 YR PPP` contains `0 YR PPP` as a substring, every description
containing `10 YR PPP` is classified not penalty-bearing, and a program
whose only rate option is described `10 YR PPP 30yr Fixed` passes the
eligibility-and-penalty filter untouched and is selected by the
Target-Pricing Selector on a non-investment scenario. -/
theorem zero_ppp_exemption_dominates :
    (∀ text : String,
      (containsL "0MO PPP".data (toUpperL text.data) ||
        containsL "0 YR PPP".data (toUpperL text.data) ||
        containsL "0YR PPP".data (toUpperL text.data)) = true →
      hasPPPInName text = false) ∧
    (∀ text : String, containsL "10 YR PPP".data (toUpperL text.data) = true →
      hasPPPInName text = false) ∧
    filterEligiblePPP "primary" [c4Prog] = [c4Prog] ∧
    getTargetPricing [c4Prog] "primary" "3year" =
      some (mkTargetOption "NonQM DSCR" c4Opt) := by
  have hfirst : ∀ text : String,
      (containsL "0MO PPP".data (toUpperL text.data) ||
        containsL "0 YR PPP".data (toUpperL text.data) ||
        containsL "0YR PPP".data (toUpperL text.data)) = true →
      hasPPPInName text = false := by
    intro text h
    simp only [hasPPPInName]
    rw [if_pos h]
  refine ⟨hfirst, ?_, ?_, ?_⟩
  · intro text h
    refine hfirst text ?_
    have h0 : containsL "0 YR PPP".data (toUpperL text.data) = true :=
      containsL_trans h (by decide)
    rw [h0]
    simp
  · simp +decide [filterEligiblePPP, filterProgramPPP, c4Prog, c4Opt]
  · simp +decide only [getTargetPricing, runPass, pass1Step, pass2Step, closestStep,
      mkTargetOption, isPPPAllowed, getPPPPattern, progDisplayName, optionDesc,
      c4Prog, c4Opt, List.foldl_cons, List.foldl_nil]
    norm_num

theorem zero_ppp_exemption_dominates_witness :
    hasPPPInName "Program 10 YR PPP Special" = false :=
  zero_ppp_exemption_dominates.2.1 "Program 10 YR PPP Special" (by decide)

end OpenPrice
